import Mathlib

/-!
Verification of the css-to-rust converter's value-mapping and CSS-parsing
modules.  The Python sources (`css_to_rust/mappings.py`, `css_to_rust/parser.py`)
are shallowly embedded over `List Char`; Python dicts become insertion-ordered
association lists, the regex scanners of the fallback parser become fuelled
recursive scanners with the exact matching semantics of the patterns used in
the source, and fallible construction becomes `Except`.
-/

set_option maxRecDepth 20000
set_option maxHeartbeats 1000000

/-! ## Basic string model -/

/-- Strings are modelled as lists of characters. -/
abbrev Str := List Char

/-- Literal helper turning a Lean string literal into the model type. -/
def str (s : String) : Str := s.data

/-- The ASCII whitespace characters stripped by Python's `str.strip()`. -/
def wsChar (c : Char) : Bool :=
  c == ' ' || c == '\t' || c == '\n' || c == '\r' || c == '\x0b' || c == '\x0c'

/-- ASCII lower-casing, as Python's `str.lower()` acts on ASCII input. -/
def lowerChar (c : Char) : Char :=
  if 'A' ≤ c ∧ c ≤ 'Z' then Char.ofNat (c.toNat + 32) else c

/-- Python `str.lower()` on the model. -/
def toLowerStr (s : Str) : Str := s.map lowerChar

/-- Python `str.lstrip()` (default whitespace). -/
def lstripWs (s : Str) : Str := s.dropWhile wsChar

/-- Python `str.rstrip()` (default whitespace). -/
def rstripWs (s : Str) : Str := ((s.reverse).dropWhile wsChar).reverse

/-- Python `str.strip()` (default whitespace). -/
def stripWs (s : Str) : Str := rstripWs (lstripWs s)

/-- Substring containment, Python's `needle in hay`. -/
def containsSub : Str → Str → Bool
  | [], needle => needle.isEmpty
  | c :: t, needle => List.isPrefixOf needle (c :: t) || containsSub t needle

/-! ## Python dictionaries as insertion-ordered association lists -/

/-- Lookup in an insertion-ordered association list (keys are unique once
built through `dictInsert`). -/
def dictGet {α β : Type} [DecidableEq α] (k : α) : List (α × β) → Option β
  | [] => none
  | (k', v) :: rest => if k' = k then some v else dictGet k rest

/-- Python dict assignment `d[k] = v`: overwrite in place, else append. -/
def dictInsert {α β : Type} [DecidableEq α] (k : α) (v : β) :
    List (α × β) → List (α × β)
  | [] => [(k, v)]
  | (k', v') :: rest =>
    if k' = k then (k', v) :: rest else (k', v') :: dictInsert k v rest

/-- A Python dict literal: successive assignments of the written pairs, so a
duplicated key keeps its first position but its last written value. -/
def buildDict {α β : Type} [DecidableEq α] (ps : List (α × β)) : List (α × β) :=
  ps.foldl (fun d kv => dictInsert kv.1 kv.2 d) []

/-- The value of the last pair with the given key in a raw pair list. -/
def lastVal {α β : Type} [DecidableEq α] (k : α) : List (α × β) → Option β
  | [] => none
  | (k', v) :: rest =>
    match lastVal k rest with
    | some w => some w
    | none => if k' = k then some v else none

/-! ## mappings.py : the default table (`ValueMappings._load_default_mappings`) -/

/-- The literal `"colors"` pair list of `_load_default_mappings`, in source
order, including the duplicated keys `#6c757d`, `#ffffff` and `#adb5bd`. -/
def colorsPairs : List (Str × Str) :=
  [ (str "#007bff", str "var(--color-primary)"),
    (str "#0056b3", str "var(--color-primary-hover)"),
    (str "#004085", str "var(--color-primary-active)"),
    (str "#6c757d", str "var(--color-secondary)"),
    (str "#545b62", str "var(--color-secondary-hover)"),
    (str "#4e555b", str "var(--color-secondary-active)"),
    (str "#28a745", str "var(--color-success)"),
    (str "#1e7e34", str "var(--color-success-hover)"),
    (str "#dc3545", str "var(--color-error)"),
    (str "#c82333", str "var(--color-error-hover)"),
    (str "#ffc107", str "var(--color-warning)"),
    (str "#e0a800", str "var(--color-warning-hover)"),
    (str "#212529", str "var(--color-text-primary)"),
    (str "#6c757d", str "var(--color-text-secondary)"),
    (str "#adb5bd", str "var(--color-text-muted)"),
    (str "#ffffff", str "var(--color-text-on-primary)"),
    (str "#ffffff", str "var(--color-background)"),
    (str "#f8f9fa", str "var(--color-surface)"),
    (str "#e9ecef", str "var(--color-surface-hover)"),
    (str "#dee2e6", str "var(--color-border)"),
    (str "#adb5bd", str "var(--color-border-hover)"),
    (str "white", str "var(--color-background)"),
    (str "black", str "var(--color-text-primary)"),
    (str "transparent", str "transparent") ]

/-- The literal `"spacing"` pair list of `_load_default_mappings`. -/
def spacingPairs : List (Str × Str) :=
  [ (str "2px", str "var(--spacing-xs)"),
    (str "4px", str "var(--spacing-xs)"),
    (str "8px", str "var(--spacing-sm)"),
    (str "12px", str "var(--spacing-md)"),
    (str "16px", str "var(--spacing-md)"),
    (str "20px", str "var(--spacing-lg)"),
    (str "24px", str "var(--spacing-lg)"),
    (str "32px", str "var(--spacing-xl)"),
    (str "40px", str "var(--spacing-xxl)"),
    (str "48px", str "var(--spacing-xxl)"),
    (str "0.125rem", str "var(--spacing-xs)"),
    (str "0.25rem", str "var(--spacing-xs)"),
    (str "0.5rem", str "var(--spacing-sm)"),
    (str "0.75rem", str "var(--spacing-md)"),
    (str "1rem", str "var(--spacing-md)"),
    (str "1.25rem", str "var(--spacing-lg)"),
    (str "1.5rem", str "var(--spacing-lg)"),
    (str "2rem", str "var(--spacing-xl)"),
    (str "2.5rem", str "var(--spacing-xxl)"),
    (str "3rem", str "var(--spacing-xxl)") ]

/-- The literal `"border_radius"` pair list of `_load_default_mappings`. -/
def borderRadiusPairs : List (Str × Str) :=
  [ (str "2px", str "var(--border-radius-sm)"),
    (str "4px", str "var(--border-radius-sm)"),
    (str "6px", str "var(--border-radius-md)"),
    (str "8px", str "var(--border-radius-md)"),
    (str "12px", str "var(--border-radius-lg)"),
    (str "16px", str "var(--border-radius-lg)"),
    (str "50%", str "50%"),
    (str "9999px", str "var(--border-radius-full)"),
    (str "0.125rem", str "var(--border-radius-sm)"),
    (str "0.25rem", str "var(--border-radius-sm)"),
    (str "0.375rem", str "var(--border-radius-md)"),
    (str "0.5rem", str "var(--border-radius-md)"),
    (str "0.75rem", str "var(--border-radius-lg)"),
    (str "1rem", str "var(--border-radius-lg)") ]

/-- The literal `"font_sizes"` pair list of `_load_default_mappings`. -/
def fontSizesPairs : List (Str × Str) :=
  [ (str "12px", str "var(--font-size-xs)"),
    (str "14px", str "var(--font-size-sm)"),
    (str "16px", str "var(--font-size-md)"),
    (str "18px", str "var(--font-size-lg)"),
    (str "20px", str "var(--font-size-xl)"),
    (str "24px", str "var(--font-size-xxl)"),
    (str "0.75rem", str "var(--font-size-xs)"),
    (str "0.875rem", str "var(--font-size-sm)"),
    (str "1rem", str "var(--font-size-md)"),
    (str "1.125rem", str "var(--font-size-lg)"),
    (str "1.25rem", str "var(--font-size-xl)"),
    (str "1.5rem", str "var(--font-size-xxl)") ]

/-- The literal `"font_weights"` pair list of `_load_default_mappings`. -/
def fontWeightsPairs : List (Str × Str) :=
  [ (str "300", str "var(--font-weight-light)"),
    (str "400", str "var(--font-weight-normal)"),
    (str "500", str "var(--font-weight-medium)"),
    (str "600", str "var(--font-weight-semibold)"),
    (str "700", str "var(--font-weight-bold)"),
    (str "800", str "var(--font-weight-extrabold)"),
    (str "light", str "var(--font-weight-light)"),
    (str "normal", str "var(--font-weight-normal)"),
    (str "medium", str "var(--font-weight-medium)"),
    (str "semibold", str "var(--font-weight-semibold)"),
    (str "bold", str "var(--font-weight-bold)") ]

/-- The literal `"shadows"` pair list of `_load_default_mappings`. -/
def shadowsPairs : List (Str × Str) :=
  [ (str "0 1px 3px rgba(0,0,0,0.1)", str "var(--shadow-sm)"),
    (str "0 4px 6px rgba(0,0,0,0.1)", str "var(--shadow-md)"),
    (str "0 10px 15px rgba(0,0,0,0.1)", str "var(--shadow-lg)"),
    (str "0 20px 25px rgba(0,0,0,0.1)", str "var(--shadow-xl)"),
    (str "none", str "none") ]

/-- The literal `"transitions"` pair list of `_load_default_mappings`. -/
def transitionsPairs : List (Str × Str) :=
  [ (str "0.15s", str "var(--transition-fast)"),
    (str "0.2s", str "var(--transition-fast)"),
    (str "0.3s", str "var(--transition-normal)"),
    (str "0.5s", str "var(--transition-slow)"),
    (str "150ms", str "var(--transition-fast)"),
    (str "200ms", str "var(--transition-fast)"),
    (str "300ms", str "var(--transition-normal)"),
    (str "500ms", str "var(--transition-slow)") ]

/-- The literal `"breakpoints"` pair list of `_load_default_mappings`. -/
def breakpointsPairs : List (Str × Str) :=
  [ (str "576px", str "var(--breakpoint-sm)"),
    (str "768px", str "var(--breakpoint-md)"),
    (str "992px", str "var(--breakpoint-lg)"),
    (str "1200px", str "var(--breakpoint-xl)"),
    (str "1400px", str "var(--breakpoint-xxl)") ]

/-- Embeds `ValueMappings._load_default_mappings`: the nested default table, each
category dict built from its literal pair list. -/
def defaultMappings : List (Str × List (Str × Str)) :=
  buildDict
    [ (str "colors", buildDict colorsPairs),
      (str "spacing", buildDict spacingPairs),
      (str "border_radius", buildDict borderRadiusPairs),
      (str "font_sizes", buildDict fontSizesPairs),
      (str "font_weights", buildDict fontWeightsPairs),
      (str "shadows", buildDict shadowsPairs),
      (str "transitions", buildDict transitionsPairs),
      (str "breakpoints", buildDict breakpointsPairs) ]

/-- Embeds `ValueMappings._get_category_for_property`. -/
def getCategoryForProperty (propertyName : Str) : Option Str :=
  let p := toLowerStr propertyName
  if containsSub p (str "color") || containsSub p (str "background") then
    some (str "colors")
  else if containsSub p (str "padding") || containsSub p (str "margin") ||
      containsSub p (str "gap") || containsSub p (str "spacing") then
    some (str "spacing")
  else if containsSub p (str "border-radius") || decide (p = str "border-radius") then
    some (str "border_radius")
  else if containsSub p (str "font-size") then some (str "font_sizes")
  else if containsSub p (str "font-weight") then some (str "font_weights")
  else if containsSub p (str "box-shadow") || containsSub p (str "shadow") then
    some (str "shadows")
  else if containsSub p (str "transition") then some (str "transitions")
  else if containsSub p (str "width") || containsSub p (str "max-width") ||
      containsSub p (str "min-width") then
    some (str "breakpoints")
  else none

/-- The final loop of `ValueMappings.map_value`: scan every category's table
in insertion order for an exact-match key (every value of the default table
is a dict, so the `isinstance` test of the source always passes here). -/
def fallbackScan (m : List (Str × List (Str × Str))) (v : Str) : Str :=
  match m.find? (fun p => (dictGet v p.2).isSome) with
  | some p => (dictGet v p.2).getD v
  | none => v

/-- Embeds `ValueMappings.map_value` over a dict-of-dicts mapping state (the shape
the default table has). -/
def mapValue (m : List (Str × List (Str × Str))) (propertyName value : Str) : Str :=
  let v := stripWs value
  match getCategoryForProperty propertyName with
  | some cat =>
    match dictGet cat m with
    | some catDict => (dictGet v catDict).getD v
    | none => fallbackScan m v
  | none => fallbackScan m v

/-- Category classifier written from the specification's own wording
(section 4.3 step 2), to be compared with `getCategoryForProperty`. -/
def specCategoryForProperty (propertyName : Str) : Option Str :=
  let p := toLowerStr propertyName
  if containsSub p (str "color") || containsSub p (str "background") then
    some (str "colors")
  else if containsSub p (str "padding") || containsSub p (str "margin") ||
      containsSub p (str "gap") || containsSub p (str "spacing") then
    some (str "spacing")
  else if decide (p = str "border-radius") || containsSub p (str "border-radius") then
    some (str "border_radius")
  else if containsSub p (str "font-size") then some (str "font_sizes")
  else if containsSub p (str "font-weight") then some (str "font_weights")
  else if containsSub p (str "box-shadow") || containsSub p (str "shadow") then
    some (str "shadows")
  else if containsSub p (str "transition") then some (str "transitions")
  else if containsSub p (str "width") || containsSub p (str "max-width") ||
      containsSub p (str "min-width") then
    some (str "breakpoints")
  else none

/-! ## mappings.py : custom-mapping merge (`__init__`, `_load_custom_mappings`,
`_merge_mappings`) -/

/-- A Python value as produced by `json.load` (and as handled by
`_merge_mappings` / `dict.update`). -/
inductive PyVal : Type
  | pstr (s : Str)
  | pnum (n : Int)
  | pbool (b : Bool)
  | pnone
  | plist (xs : List PyVal)
  | pdict (kvs : List (PyVal × PyVal))

/-- Equality of Python dict keys.  Only hashable values can be keys, so the
comparison need only cover the scalar constructors. -/
def pyKeyEq : PyVal → PyVal → Bool
  | .pstr a, .pstr b => a == b
  | .pnum a, .pnum b => a == b
  | .pbool a, .pbool b => a == b
  | .pnone, .pnone => true
  | _, _ => false

/-- Lookup in a Python dict over `PyVal` keys. -/
def pyDictGet (k : PyVal) : List (PyVal × PyVal) → Option PyVal
  | [] => none
  | (k', v) :: rest => if pyKeyEq k' k then some v else pyDictGet k rest

/-- Python dict assignment over `PyVal` keys: overwrite in place, else append. -/
def pyDictInsert (k v : PyVal) : List (PyVal × PyVal) → List (PyVal × PyVal)
  | [] => [(k, v)]
  | (k', v') :: rest =>
    if pyKeyEq k' k then (k', v) :: rest else (k', v') :: pyDictInsert k v rest

/-- Whether a Python value is hashable (usable as a dict key). -/
def PyVal.hashable : PyVal → Bool
  | .plist _ => false
  | .pdict _ => false
  | _ => true

/-- Python's `dict.update(values)` on a category table: succeeds on a dict
argument, accepts an iterable of key/value 2-sequences, and raises
`TypeError`/`ValueError` otherwise, exactly as `self.mappings[category]
.update(values)` behaves in `_merge_mappings`. -/
def updatePyDict (d : List (PyVal × PyVal)) : PyVal → Except Str (List (PyVal × PyVal))
  | .pdict kvs => .ok (kvs.foldl (fun acc kv => pyDictInsert kv.1 kv.2 acc) d)
  | .plist xs =>
    xs.foldlM (fun acc elem =>
      match elem with
      | .plist [k, v] =>
        if k.hashable then .ok (pyDictInsert k v acc)
        else .error (str "TypeError: unhashable type")
      | .plist _ => .error (str "ValueError: sequence length")
      | .pstr [c1, c2] => .ok (pyDictInsert (.pstr [c1]) (.pstr [c2]) acc)
      | .pstr _ => .error (str "ValueError: sequence length")
      | .pdict [(k1, _), (k2, _)] => .ok (pyDictInsert k1 k2 acc)
      | .pdict _ => .error (str "ValueError: sequence length")
      | _ => .error (str "TypeError: cannot convert element")) d
  | .pstr [] => .ok d
  | .pstr _ => .error (str "ValueError: sequence length")
  | _ => .error (str "TypeError: object is not iterable")

/-- Embeds `ValueMappings._merge_mappings(custom_mappings)`: iterates
`custom_mappings.items()` — an `AttributeError` on any non-dict value, which
the constructor does not catch — updating existing categories in place and
assigning new ones verbatim. -/
def mergeMappings (m : List (PyVal × PyVal)) : PyVal → Except Str (List (PyVal × PyVal))
  | .pdict kvs =>
    kvs.foldlM (fun acc cv =>
      match pyDictGet cv.1 acc with
      | some (.pdict d) => (updatePyDict d cv.2).map (fun d' => pyDictInsert cv.1 (.pdict d') acc)
      | some _ => .error (str "AttributeError: no update method")
      | none => .ok (pyDictInsert cv.1 cv.2 acc)) m
  | _ => .error (str "AttributeError: no items method")

/-- The default table in `PyVal` form, as `self.mappings` holds it before
`_merge_mappings` runs. -/
def defaultMappingsPy : List (PyVal × PyVal) :=
  defaultMappings.map (fun cd =>
    (PyVal.pstr cd.1, PyVal.pdict (cd.2.map (fun kv => (PyVal.pstr kv.1, PyVal.pstr kv.2)))))

/-- Embeds `ValueMappings.__init__(config_path)` restricted to its mapping-table
effect.  `none` models no config path (or a non-existing one); `some (.error e)`
models an unreadable or JSON-syntactically-invalid file, which
`_load_custom_mappings` catches, warns about and turns into the empty dict;
`some (.ok j)` models a successfully decoded JSON document `j` handed to
`_merge_mappings`. -/
def constructMappings : Option (Except Str PyVal) → Except Str (List (PyVal × PyVal))
  | none => .ok defaultMappingsPy
  | some (.error _) => mergeMappings defaultMappingsPy (.pdict [])
  | some (.ok j) => mergeMappings defaultMappingsPy j

/-! ## parser.py : data model -/

/-- Embeds the `CssRule` dataclass: selector, insertion-ordered property dict, optional
media query, optional pseudo selector, and the re-serialized raw text. -/
structure CssRule : Type where
  selector : Str
  properties : List (Str × Str)
  media_query : Option Str := none
  pseudo_selector : Option Str := none
  raw_css : Str := []
deriving DecidableEq

/-! ## parser.py : shared selector and declaration handling -/

/-- The pseudo-selector extraction shared verbatim by `_parse_style_rule`
(lines 88-94) and `_parse_rules_content` (lines 190-196): if the selector
contains `:` and does not start with `:root`, split on the first `:` and
strip both parts. -/
def splitPseudo (sel : Str) : Str × Option Str :=
  if sel.any (fun c => c == ':') && !(List.isPrefixOf (str ":root") sel) then
    (stripWs (sel.takeWhile (fun c => c != ':')),
      some (stripWs ((sel.dropWhile (fun c => c != ':')).tail)))
  else (sel, none)

/-- Python `str.split(c)`: split on every occurrence of a one-character
separator, keeping empty chunks. -/
def splitOnChar (c : Char) : Str → List Str
  | [] => [[]]
  | a :: s =>
    match splitOnChar c s with
    | [] => if a = c then [[], []] else [[a]]
    | h :: t => if a = c then [] :: h :: t else (a :: h) :: t

/-- One iteration of the declaration loop of `_parse_properties_string`:
strip the chunk, skip it when empty or colon-free, otherwise split on the
first `:`, strip name and value and store them when both are non-empty. -/
def parsePropsChunk (acc : List (Str × Str)) (chunk : Str) : List (Str × Str) :=
  let c := stripWs chunk
  if c.isEmpty then acc
  else if c.any (fun ch => ch == ':') then
    let name := stripWs (c.takeWhile (fun ch => ch != ':'))
    let v := stripWs ((c.dropWhile (fun ch => ch != ':')).tail)
    if !name.isEmpty && !v.isEmpty then dictInsert name v acc else acc
  else acc

/-- Embeds `CssParser._parse_properties_string`. -/
def parseProps (s : Str) : List (Str × Str) :=
  (splitOnChar ';' s).foldl parsePropsChunk []

/-! ## parser.py : the regex scanners of the fallback strategy

`re.findall` walks the subject left to right, attempting the pattern at each
position, emitting the group tuple and resuming after the match on success
and advancing one character on failure.  The patterns used by the source
backtrack deterministically, so each one is realized as a fuelled scanner
with exactly the documented match semantics. -/

/-- Matching `([^{]+)\{([^}]+)\}` (the rule pattern of `_parse_rules_content`
and `_parse_keyframes_content`) at the current position: a non-empty run of
non-`{` characters, a `{`, a non-empty run of non-`}` characters, and a `}`.
Returns both groups and the remaining input. -/
def matchRuleAt (s : Str) : Option (Str × Str × Str) :=
  let g1 := s.takeWhile (fun c => c != '{')
  if g1.isEmpty then none
  else if g1.length = s.length then none
  else
    let t := s.drop (g1.length + 1)
    let g2 := t.takeWhile (fun c => c != '}')
    if g2.isEmpty then none
    else if g2.length = t.length then none
    else some (g1, g2, t.drop (g2.length + 1))

/-- Runs `re.findall` for the rule pattern. -/
def ruleFindallAux : Nat → Str → List (Str × Str)
  | 0, _ => []
  | _, [] => []
  | fuel + 1, a :: s =>
    match matchRuleAt (a :: s) with
    | some (g1, g2, rest) => (g1, g2) :: ruleFindallAux fuel rest
    | none => ruleFindallAux fuel s

def ruleFindall (s : Str) : List (Str × Str) := ruleFindallAux (s.length + 1) s

/-- The body scanner of the block patterns
`[^{}]*(?:\{[^{}]*\}[^{}]*)*` followed by `\}`: a single brace-nesting level,
ending at the first unconsumed `}`.  Returns the body and the input after the
closing `}`; fails on a second nesting level or a missing closer, as the
regex does. -/
def blockBodyScan : Nat → Str → Option (Str × Str)
  | 0, _ => none
  | _, [] => none
  | fuel + 1, c :: r =>
    if c = '}' then some ([], r)
    else if c = '{' then
      let i := r.takeWhile (fun d => d != '{' && d != '}')
      match r.drop i.length with
      | '}' :: r' =>
        (blockBodyScan fuel r').map (fun p => ('{' :: (i ++ '}' :: p.1), p.2))
      | _ => none
    else (blockBodyScan fuel r).map (fun p => (c :: p.1, p.2))

/-- Matching `KW\s+([^{]+)\s*\{BODY\}` (the `@media` / `@keyframes` patterns,
`KW` being the literal keyword) at the current position.  The greedy `[^{]+`
absorbs everything up to the first `{`, backtracking into `\s+` only when it
would otherwise be empty, and `\s*` is left empty. -/
def matchBlockAt (kw : Str) (s : Str) : Option (Str × Str × Str) :=
  if List.isPrefixOf kw s then
    let t := s.drop kw.length
    let c := t.takeWhile (fun d => d != '{')
    if c.length = t.length then none
    else
      let w := (c.takeWhile wsChar).length
      if w = 0 then none
      else if c.length < 2 then none
      else
        let g1 := c.drop (min w (c.length - 1))
        match blockBodyScan (t.length + 1) (t.drop (c.length + 1)) with
        | some (body, rest) => some (g1, body, rest)
        | none => none
  else none

/-- Runs `re.findall` for an `@`-block pattern. -/
def blockFindallAux (kw : Str) : Nat → Str → List (Str × Str)
  | 0, _ => []
  | _, [] => []
  | fuel + 1, a :: s =>
    match matchBlockAt kw (a :: s) with
    | some (g1, body, rest) => (g1, body) :: blockFindallAux kw fuel rest
    | none => blockFindallAux kw fuel s

def blockFindall (kw : Str) (s : Str) : List (Str × Str) :=
  blockFindallAux kw (s.length + 1) s

/-- The comment stripper `re.sub(r'/\*.*?\*/', '', css, flags=DOTALL)`:
each non-greedy match runs from a `/*` to the nearest following `*/`. -/
def findCommentClose : Str → Option Str
  | '*' :: '/' :: r => some r
  | _ :: r => findCommentClose r
  | [] => none

def stripCommentsAux : Nat → Str → Str
  | 0, s => s
  | _ + 1, [] => []
  | fuel + 1, c :: r =>
    if c = '/' ∧ r.head? = some '*' then
      match findCommentClose r.tail with
      | some rest => stripCommentsAux fuel rest
      | none => c :: r
    else c :: stripCommentsAux fuel r

def stripComments (s : Str) : Str := stripCommentsAux (s.length + 1) s

/-- Python `str.replace(old, '')` with a non-empty pattern: remove every
left-to-right non-overlapping occurrence. -/
def removeAllAux (pat : Str) : Nat → Str → Str
  | 0, s => s
  | _, [] => []
  | fuel + 1, a :: s =>
    if List.isPrefixOf pat (a :: s) then removeAllAux pat fuel ((a :: s).drop pat.length)
    else a :: removeAllAux pat fuel s

def removeAll (s pat : Str) : Str :=
  if pat.isEmpty then s else removeAllAux pat (s.length + 1) s

/-! ## parser.py : the fallback strategy -/

/-- Embeds `CssParser._parse_rules_content`: scan `selector { declarations }` pairs,
skip matches with an empty stripped selector or an empty property dict, split
off the pseudo selector, and re-serialize `raw_css` from the post-split
selector and the raw declaration text. -/
def parseRulesContent (content : Str) (mq : Option Str) : List CssRule :=
  (ruleFindall content).filterMap (fun g =>
    let sel := stripWs g.1
    if sel.isEmpty then none
    else
      let props := parseProps g.2
      if props.isEmpty then none
      else
        let sp := splitPseudo sel
        some { selector := sp.1, properties := props, media_query := mq,
               pseudo_selector := sp.2,
               raw_css := sp.1 ++ str " \x7b " ++ g.2 ++ str " \x7d" })

/-- Embeds `CssParser._parse_with_regex`, restricted to its returned rule list: strip
comments, extract and parse `@media` blocks (attempting — and with this
reconstruction usually failing — to remove each block's text), remove
`@keyframes` blocks the same way, then scan the remaining text for regular
rules.  Media-bound rules are accumulated before the regular scan runs. -/
def parseWithRegex (css : Str) : List CssRule :=
  let css1 := stripComments css
  let mm := blockFindall (str "@media") css1
  let mediaRules := mm.foldr
    (fun qb acc => parseRulesContent (stripWs qb.2) (some (stripWs qb.1)) ++ acc) []
  let css2 := mm.foldl
    (fun c qb => removeAll c (str "@media " ++ qb.1 ++ str " \x7b" ++ qb.2 ++ str "\x7d")) css1
  let km := blockFindall (str "@keyframes") css2
  let css3 := km.foldl
    (fun c nb => removeAll c (str "@keyframes " ++ nb.1 ++ str " \x7b" ++ nb.2 ++ str "\x7d")) css2
  mediaRules ++ parseRulesContent css3 none

/-! ## parser.py : the primary (cssutils) strategy over an abstract sheet -/

/-- A top-level rule of the structured CSS object model that
`_parse_with_cssutils` walks: the selector text, declaration list and raw
text of style rules are abstract inputs produced by the external library. -/
inductive SheetRule : Type
  | styleRule (selectorText : Str) (decls : List (Str × Str)) (cssText : Str)
  | mediaRule (mediaText : Str) (children : List (Str × List (Str × Str) × Str))
  | keyframesRule (name : Str) (frames : List (Str × List (Str × Str)))
  | importRule (href : Str)

/-- The property-dict accumulation of `_parse_style_rule`: store each
declared pair, skipping empty names or values. -/
def stylePropsOf (decls : List (Str × Str)) : List (Str × Str) :=
  decls.foldl
    (fun acc nv => if !nv.1.isEmpty && !nv.2.isEmpty then dictInsert nv.1 nv.2 acc else acc) []

/-- Embeds `CssParser._parse_style_rule`: build the property dict skipping empty
names or values, drop the rule when no property survives, then split the
pseudo selector off the stripped selector text. -/
def parseStyleRule (selectorText : Str) (decls : List (Str × Str)) (cssText : Str) :
    Option CssRule :=
  if (stylePropsOf decls).isEmpty then none
  else
    some { selector := (splitPseudo (stripWs selectorText)).1,
           properties := stylePropsOf decls, media_query := none,
           pseudo_selector := (splitPseudo (stripWs selectorText)).2,
           raw_css := cssText }

/-- Embeds `CssParser._parse_media_rule`: parse each nested style rule and tag it
with the enclosing media condition text. -/
def parseMediaRule (mediaText : Str) (children : List (Str × List (Str × Str) × Str)) :
    List CssRule :=
  children.foldr (fun ch acc =>
    match parseStyleRule ch.1 ch.2.1 ch.2.2 with
    | some r => { r with media_query := some mediaText } :: acc
    | none => acc) []

/-- Embeds `CssParser._parse_with_cssutils`, restricted to its returned rule list:
walk the sheet's top-level rules in order, appending style rules and the
children of media rules in place. -/
def parseWithCssutils (sheet : List SheetRule) : List CssRule :=
  sheet.foldr (fun rule acc =>
    match rule with
    | .styleRule s d c =>
      match parseStyleRule s d c with
      | some r => r :: acc
      | none => acc
    | .mediaRule m ch => parseMediaRule m ch ++ acc
    | .keyframesRule _ _ => acc
    | .importRule _ => acc) []

/-! ## parser.py : component grouping and variants -/

/-- Leading-character strip of `_extract_component_name` /
`_split_variant_name`: Python `selector.lstrip('. ')`. -/
def lstripDotSpace (s : Str) : Str := s.dropWhile (fun c => c == '.' || c == ' ')

/-- The delimiter class of `re.split(r'[-_\s]', selector)`. -/
def componentDelim (c : Char) : Bool := c == '-' || c == '_' || wsChar c

/-- Runs `re.split` on a character class, keeping empty chunks. -/
def splitOnPred (p : Char → Bool) : Str → List Str
  | [] => [[]]
  | a :: s =>
    match splitOnPred p s with
    | [] => if p a then [[], []] else [[a]]
    | h :: t => if p a then [] :: h :: t else (a :: h) :: t

/-- Embeds `CssParser._extract_component_name`: known component prefixes first, then
the first delimiter-separated token lower-cased; `re.split` never yields an
empty list, so the trailing `'component'` return of the source is the
(unreachable) empty-token-list branch. -/
def extractComponentName (selector : Str) : Str :=
  let s := lstripDotSpace selector
  if List.isPrefixOf (str "btn") s then str "button"
  else if List.isPrefixOf (str "card") s then str "card"
  else if List.isPrefixOf (str "nav") s then str "navbar"
  else if List.isPrefixOf (str "modal") s then str "modal"
  else if List.isPrefixOf (str "form") s then str "form"
  else if List.isPrefixOf (str "input") s then str "input"
  else if List.isPrefixOf (str "table") s then str "table"
  else if List.isPrefixOf (str "alert") s then str "alert"
  else
    match splitOnPred componentDelim s with
    | w :: _ => toLowerStr w
    | [] => str "component"

/-- The three explicit alternation groups of `_split_variant_name`'s
variant patterns, in source order. -/
def variantAlts1 : List Str :=
  [str "primary", str "secondary", str "success", str "danger",
   str "warning", str "info", str "light", str "dark"]

def variantAlts2 : List Str :=
  [str "small", str "sm", str "large", str "lg", str "xl", str "xs"]

def variantAlts3 : List Str := [str "outline", str "solid", str "ghost", str "link"]

/-- Case-insensitive prefix test (`re.IGNORECASE` alternative matching);
the alternatives are lower-case ASCII words. -/
def ciStartsWith (needle hay : Str) : Bool :=
  List.isPrefixOf needle (toLowerStr hay)

/-- First alternative of a group that matches at the current position, in
the group's order (regex alternation preference). -/
def matchAltList (alts : List Str) (s : Str) : Option Str :=
  alts.find? (fun a => ciStartsWith a s)

/-- Embeds `CssParser._split_variant_name`.  All four patterns share the anchored
shape `([a-zA-Z]+)[-_](...)`; the maximal leading letter run is the base,
the next character must be `-` or `_`, and the variant is the first
alternation hit or, failing the three word groups, the following letter run
(the generic fourth pattern). -/
def splitVariantName (selector : Str) : Str × Option Str :=
  let clean := lstripDotSpace selector
  let b := clean.takeWhile Char.isAlpha
  match clean.drop b.length with
  | c :: rest =>
    if !b.isEmpty && (c == '-' || c == '_') then
      match matchAltList variantAlts1 rest <|> matchAltList variantAlts2 rest <|>
          matchAltList variantAlts3 rest with
      | some v => (toLowerStr b, some v)
      | none =>
        let v := rest.takeWhile Char.isAlpha
        if !v.isEmpty then (toLowerStr b, some (toLowerStr v))
        else (toLowerStr clean, none)
    else (toLowerStr clean, none)
  | [] => (toLowerStr clean, none)

/-- The grouping key of `extract_variants`: `base_variant`, or the bare base
when no variant was split off. -/
def variantKey (selector : Str) : Str :=
  let bv := splitVariantName selector
  match bv.2 with
  | some v => bv.1 ++ '_' :: v
  | none => bv.1

/-- The accumulation step shared by `group_rules_by_component` and
`extract_variants`: a dict of lists, appending each rule to its key's list,
creating the key on first sight. -/
def addToGroup (k : Str) (r : CssRule) :
    List (Str × List CssRule) → List (Str × List CssRule)
  | [] => [(k, [r])]
  | (k', rs) :: rest =>
    if k' = k then (k', rs ++ [r]) :: rest else (k', rs) :: addToGroup k r rest

/-- Grouping a rule list by an arbitrary selector-derived key. -/
def groupByKey (key : CssRule → Str) (rules : List CssRule) :
    List (Str × List CssRule) :=
  rules.foldl (fun acc r => addToGroup (key r) r acc) []

/-- Embeds `CssParser.group_rules_by_component`. -/
def groupRulesByComponent (rules : List CssRule) : List (Str × List CssRule) :=
  groupByKey (fun r => extractComponentName r.selector) rules

/-- Embeds `CssParser.extract_variants`. -/
def extractVariants (rules : List CssRule) : List (Str × List CssRule) :=
  groupByKey (fun r => variantKey r.selector) rules

/-! ## Definitions written from the specification's wording (for refinement
claims only) -/

/-- Component-name inference written from the specification's wording
(section 4.2): known prefixes in order, else the first delimiter-separated
token lower-cased, else the literal name `component`. -/
def specComponentName (selector : Str) : Str :=
  let s := lstripDotSpace selector
  if List.isPrefixOf (str "btn") s then str "button"
  else if List.isPrefixOf (str "card") s then str "card"
  else if List.isPrefixOf (str "nav") s then str "navbar"
  else if List.isPrefixOf (str "modal") s then str "modal"
  else if List.isPrefixOf (str "form") s then str "form"
  else if List.isPrefixOf (str "input") s then str "input"
  else if List.isPrefixOf (str "table") s then str "table"
  else if List.isPrefixOf (str "alert") s then str "alert"
  else
    match (splitOnPred componentDelim s).head? with
    | some w => toLowerStr w
    | none => str "component"

/-- The concatenation of the per-key groups of a grouping result. -/
def concatGroups (gs : List (Str × List CssRule)) : List CssRule :=
  gs.foldr (fun g acc => g.2 ++ acc) []

/-- The syntactic class "simple single-rule stylesheet" of the round-trip
claim: one `selector { declarations }` block, no `@`-rules, no comments and
no stray braces, with a non-empty selector and at least one declaration. -/
def SimpleSingleRule (S D : Str) : Prop :=
  '{' ∉ S ∧ '}' ∉ S ∧ '{' ∉ D ∧ '}' ∉ D ∧
  '@' ∉ S ∧ '@' ∉ D ∧ '/' ∉ S ∧ '/' ∉ D ∧
  ¬ (stripWs S).isEmpty ∧ ¬ (parseProps D).isEmpty

instance (S D : Str) : Decidable (SimpleSingleRule S D) := by
  unfold SimpleSingleRule; infer_instance

/-- Map a function over only the last element of a list. -/
def mapLast (f : Str → Str) : List Str → List Str
  | [] => []
  | [x] => [f x]
  | x :: y :: t => x :: mapLast f (y :: t)

/-! ## Concrete instances used by the claims -/

/-- A rule for selector `.btn-primary`. -/
def btnPrimaryRule : CssRule :=
  { selector := str ".btn-primary", properties := [(str "color", str "red")] }

/-- A rule for selector `.btn-secondary`. -/
def btnSecondaryRule : CssRule :=
  { selector := str ".btn-secondary", properties := [(str "color", str "blue")] }

/-- A rule for selector `.card-header`. -/
def cardHeaderRule : CssRule :=
  { selector := str ".card-header", properties := [(str "padding", str "16px")] }

/-- A degenerate rule with an empty property mapping. -/
def emptyPropsRule : CssRule := { selector := str ".x", properties := [] }

/-- A well-formed single-rule input for the fallback parser. -/
def c8Rule : CssRule :=
  { selector := str ".a", properties := [(str "x", str "1")],
    raw_css := str ".a \x7b x:1 \x7d" }

/-- The stylesheet `.a { color: red; } @media screen { .b { color: blue; } }`. -/
def c6Css : Str :=
  str ".a \x7b color: red; \x7d @media screen \x7b .b \x7b color: blue; \x7d \x7d"

/-- The media-bound rule the fallback parser produces first on `c6Css`. -/
def c6RuleB : CssRule :=
  { selector := str ".b", properties := [(str "color", str "blue")],
    media_query := some (str "screen"),
    raw_css := str ".b \x7b  color: blue;  \x7d" }

/-- The regular rule the fallback parser produces second on `c6Css`. -/
def c6RuleA : CssRule :=
  { selector := str ".a", properties := [(str "color", str "red")],
    raw_css := str ".a \x7b  color: red;  \x7d" }

/-- The re-scan artifact of the media block of `c6Css`, produced because the
reconstructed replacement text of the block is not found in the source. -/
def c6RuleJ : CssRule :=
  { selector := str "@media screen",
    properties := [(str ".b \x7b color", str "blue")],
    raw_css := str "@media screen \x7b  .b \x7b color: blue;  \x7d" }

/-- The rule the fallback parser produces for `:hover{color:red}`: the
post-split selector is empty and `raw_css` re-serializes without the pseudo
class. -/
def c9Rule : CssRule :=
  { selector := [], properties := [(str "color", str "red")],
    pseudo_selector := some (str "hover"),
    raw_css := str " \x7b color:red \x7d" }

/-! ## Generic list and string lemmas -/

theorem takeWhile_append_of_sat {p : Char → Bool} {xs : Str} (h : ∀ c ∈ xs, p c = true)
    {y : Char} (hy : p y = false) (ys : Str) :
    (xs ++ y :: ys).takeWhile p = xs := by
  induction xs with
  | nil => simp [List.takeWhile_cons, hy]
  | cons a t ih =>
    have ha : p a = true := h a (by simp)
    simp [List.takeWhile_cons, ha, ih (fun c hc => h c (by simp [hc]))]

theorem dropWhile_append_of_sat {p : Char → Bool} {xs : Str} (h : ∀ c ∈ xs, p c = true)
    {y : Char} (hy : p y = false) (ys : Str) :
    (xs ++ y :: ys).dropWhile p = y :: ys := by
  induction xs with
  | nil => simp [List.dropWhile_cons, hy]
  | cons a t ih =>
    have ha : p a = true := h a (by simp)
    simp [List.dropWhile_cons, ha, ih (fun c hc => h c (by simp [hc]))]

theorem dropWhile_head_false {p : Char → Bool} :
    ∀ {s : Str} {c : Char} {t : Str}, s.dropWhile p = c :: t → p c = false := by
  intro s
  induction s with
  | nil => intro c t h; simp [List.dropWhile] at h
  | cons a s ih =>
    intro c t h
    rw [List.dropWhile_cons] at h
    split at h
    · exact ih h
    · cases h
      rename_i hpa
      simpa using hpa

theorem dropWhile_idem {p : Char → Bool} (s : Str) :
    (s.dropWhile p).dropWhile p = s.dropWhile p := by
  rcases hd : s.dropWhile p with _ | ⟨c, t⟩
  · rfl
  · have hc := dropWhile_head_false hd
    simp [List.dropWhile_cons, hc]

theorem rstripWs_append_ws (s : Str) : rstripWs (s ++ [' ']) = rstripWs s := by
  have hws : wsChar ' ' = true := by decide
  simp [rstripWs, List.reverse_append, List.dropWhile_cons, hws]

theorem rstripWs_idem (s : Str) : rstripWs (rstripWs s) = rstripWs s := by
  simp [rstripWs, List.reverse_reverse, dropWhile_idem]

theorem stripWs_cons_ws (s : Str) : stripWs (' ' :: s) = stripWs s := by
  have hws : wsChar ' ' = true := by decide
  simp [stripWs, lstripWs, List.dropWhile_cons, hws]

theorem stripWs_append_ws (s : Str) : stripWs (s ++ [' ']) = stripWs s := by
  have hws : wsChar ' ' = true := by decide
  unfold stripWs lstripWs
  rw [List.dropWhile_append]
  split
  · rename_i h
    have h' : s.dropWhile wsChar = [] := List.isEmpty_iff.mp h
    rw [h']
    simp [List.dropWhile_cons, hws, List.dropWhile_nil]
  · exact rstripWs_append_ws _

theorem rstripWs_isPre (s : Str) : ∃ t, s = rstripWs s ++ t := by
  have h := @List.dropWhile_suffix Char s.reverse wsChar
  have h2 : rstripWs s <+: s := by
    have h3 := (@List.reverse_prefix Char (List.dropWhile wsChar s.reverse) s.reverse).mpr h
    simpa [rstripWs] using h3
  rcases h2 with ⟨t, ht⟩
  exact ⟨t, ht.symm⟩

theorem lstrip_rstrip_lstrip (s : Str) :
    lstripWs (rstripWs (lstripWs s)) = rstripWs (lstripWs s) := by
  rcases h : rstripWs (lstripWs s) with _ | ⟨c, t⟩
  · simp [lstripWs]
  · obtain ⟨t', ht'⟩ := rstripWs_isPre (lstripWs s)
    rw [h] at ht'
    have hd : (s.dropWhile wsChar) = c :: (t ++ t') := by simpa [lstripWs] using ht'
    have hc : wsChar c = false := dropWhile_head_false hd
    simp [lstripWs, List.dropWhile_cons, hc]

theorem stripWs_idem (s : Str) : stripWs (stripWs s) = stripWs s := by
  show rstripWs (lstripWs (rstripWs (lstripWs s))) = rstripWs (lstripWs s)
  rw [lstrip_rstrip_lstrip, rstripWs_idem]

theorem stripWs_strip_append_ws (s : Str) : stripWs (stripWs s ++ [' ']) = stripWs s := by
  rw [stripWs_append_ws, stripWs_idem]

theorem splitOnChar_ne_nil (c : Char) (s : Str) : splitOnChar c s ≠ [] := by
  induction s with
  | nil => simp [splitOnChar]
  | cons a t ih =>
    rcases h : splitOnChar c t with _ | ⟨h0, t0⟩
    · exact absurd h ih
    · simp only [splitOnChar, h]
      split <;> simp

theorem splitOnChar_cons_of_ne {a c : Char} (h : a ≠ c) (s : Str) {h0 : Str}
    {t0 : List Str} (hs : splitOnChar c s = h0 :: t0) :
    splitOnChar c (a :: s) = (a :: h0) :: t0 := by
  simp [splitOnChar, hs, h]

theorem splitOnChar_append_ne {a c : Char} (hne : a ≠ c) :
    ∀ s : Str, splitOnChar c (s ++ [a]) = mapLast (fun x => x ++ [a]) (splitOnChar c s) := by
  intro s
  induction s with
  | nil => simp [splitOnChar, mapLast, hne]
  | cons b s ih =>
    rcases h : splitOnChar c s with _ | ⟨h0, t0⟩
    · exact absurd h (splitOnChar_ne_nil c s)
    · by_cases hb : b = c
      · subst hb
        rcases t0 with _ | ⟨y, t'⟩ <;>
          simp [splitOnChar, ih, h, mapLast]
      · rcases t0 with _ | ⟨y, t'⟩ <;>
          simp [splitOnChar, ih, h, mapLast, hb]

theorem parsePropsChunk_congr {c1 c2 : Str} (h : stripWs c1 = stripWs c2)
    (acc : List (Str × Str)) : parsePropsChunk acc c1 = parsePropsChunk acc c2 := by
  simp [parsePropsChunk, h]

theorem parseProps_cons_ws (D : Str) : parseProps (' ' :: D) = parseProps D := by
  rcases h : splitOnChar ';' D with _ | ⟨h0, t0⟩
  · exact absurd h (splitOnChar_ne_nil _ _)
  · unfold parseProps
    rw [splitOnChar_cons_of_ne (by decide) D h, h]
    simp only [List.foldl_cons]
    rw [parsePropsChunk_congr (stripWs_cons_ws h0) []]

theorem foldl_parseProps_mapLast_ws :
    ∀ (chunks : List Str) (acc : List (Str × Str)),
      List.foldl parsePropsChunk acc (mapLast (fun x => x ++ [' ']) chunks) =
        List.foldl parsePropsChunk acc chunks := by
  intro chunks
  induction chunks with
  | nil => intro acc; rfl
  | cons x t ih =>
    intro acc
    rcases t with _ | ⟨y, t'⟩
    · simp only [mapLast, List.foldl_cons, List.foldl_nil]
      exact parsePropsChunk_congr (stripWs_append_ws x) acc
    · simp only [mapLast, List.foldl_cons]
      exact ih _

theorem parseProps_append_ws (D : Str) : parseProps (D ++ [' ']) = parseProps D := by
  unfold parseProps
  rw [splitOnChar_append_ne (by decide) D]
  exact foldl_parseProps_mapLast_ws _ _

theorem dictGet_dictInsert {α β : Type} [DecidableEq α] (k k' : α) (v : β)
    (d : List (α × β)) :
    dictGet k (dictInsert k' v d) = if k' = k then some v else dictGet k d := by
  induction d with
  | nil => simp [dictInsert, dictGet]
  | cons p rest ih =>
    obtain ⟨k0, v0⟩ := p
    by_cases h1 : k0 = k' <;> by_cases h2 : k0 = k <;> by_cases h3 : k' = k <;>
      simp_all [dictInsert, dictGet]

theorem dictGet_foldl_insert {α β : Type} [DecidableEq α] :
    ∀ (ps : List (α × β)) (d : List (α × β)) (k : α),
      dictGet k (ps.foldl (fun d kv => dictInsert kv.1 kv.2 d) d) =
        match lastVal k ps with
        | some w => some w
        | none => dictGet k d := by
  intro ps
  induction ps with
  | nil => intro d k; rfl
  | cons p rest ih =>
    intro d k
    simp only [List.foldl_cons, lastVal]
    rw [ih]
    rcases h : lastVal k rest with _ | w
    · rw [dictGet_dictInsert]
      by_cases hp : p.1 = k <;> simp [hp]
    · simp

theorem dictGet_buildDict {α β : Type} [DecidableEq α] (ps : List (α × β)) (k : α) :
    dictGet k (buildDict ps) = lastVal k ps := by
  unfold buildDict
  rw [dictGet_foldl_insert]
  rcases lastVal k ps <;> rfl

/-! ## Lemmas about the fallback scanners -/

theorem stripCommentsAux_of_none : ∀ (fuel : Nat) (s : Str), '/' ∉ s →
    stripCommentsAux fuel s = s := by
  intro fuel
  induction fuel with
  | zero => intro s _; rfl
  | succ n ih =>
    intro s h
    rcases s with _ | ⟨a, t⟩
    · rfl
    · have ha : ¬(a = '/' ∧ t.head? = some '*') := by
        rintro ⟨e, -⟩
        exact h (by simp [e])
      simp only [stripCommentsAux, if_neg ha]
      rw [ih t (fun hc => h (by simp [hc]))]

theorem stripComments_of_none {s : Str} (h : '/' ∉ s) : stripComments s = s :=
  stripCommentsAux_of_none _ s h

theorem blockFindallAux_of_no_at (kw' : Str) : ∀ (fuel : Nat) (s : Str), '@' ∉ s →
    blockFindallAux ('@' :: kw') fuel s = [] := by
  intro fuel
  induction fuel with
  | zero => intro s _; simp [blockFindallAux]
  | succ n ih =>
    intro s h
    rcases s with _ | ⟨a, t⟩
    · rfl
    · have ha : ('@' == a) = false := by
        rw [beq_eq_false_iff_ne]
        intro e
        exact h (by simp [← e])
      have hm : matchBlockAt ('@' :: kw') (a :: t) = none := by
        unfold matchBlockAt
        rw [if_neg]
        simp [List.isPrefixOf, ha]
      simp only [blockFindallAux, hm]
      exact ih t (fun hc => h (by simp [hc]))

theorem blockFindall_of_no_at {kw' s : Str} (h : '@' ∉ s) :
    blockFindall ('@' :: kw') s = [] :=
  blockFindallAux_of_no_at kw' _ s h

theorem matchRuleAt_single {S D : Str} (hS : S ≠ []) (hSb : '{' ∉ S) (hD : D ≠ [])
    (hDb : '}' ∉ D) :
    matchRuleAt (S ++ '{' :: (D ++ ['}'])) = some (S, D, []) := by
  have hg1 : (S ++ '{' :: (D ++ ['}'])).takeWhile (fun c => c != '{') = S :=
    takeWhile_append_of_sat
      (fun c hc => by rw [bne_iff_ne]; intro e; exact hSb (e ▸ hc)) (by decide) _
  have hlen : S.length ≠ (S ++ '{' :: (D ++ ['}'])).length := by
    simp [List.length_append]
  have hdrop : (S ++ '{' :: (D ++ ['}'])).drop (S.length + 1) = D ++ ['}'] := by
    rw [List.append_cons S '{' (D ++ ['}'])]
    have : S.length + 1 = (S ++ ['{']).length := by simp
    rw [this, List.drop_left]
  have hg2 : (D ++ ['}']).takeWhile (fun c => c != '}') = D := by
    have : D ++ ['}'] = D ++ '}' :: [] := rfl
    rw [this]
    exact takeWhile_append_of_sat
      (fun c hc => by rw [bne_iff_ne]; intro e; exact hDb (e ▸ hc)) (by decide) _
  have hlen2 : D.length ≠ (D ++ ['}']).length := by simp
  have hdrop2 : (D ++ ['}']).drop (D.length + 1) = [] := by
    have : D.length + 1 = (D ++ ['}']).length := by simp
    rw [this, List.drop_length]
  unfold matchRuleAt
  rw [hg1]
  rw [if_neg (by simpa [List.isEmpty_eq_false] using hS)]
  rw [if_neg hlen]
  simp only [hdrop, hg2]
  rw [if_neg (by simpa [List.isEmpty_eq_false] using hD)]
  rw [if_neg hlen2]
  rw [hdrop2]

theorem ruleFindallAux_nil (fuel : Nat) : ruleFindallAux fuel [] = [] := by
  cases fuel <;> rfl

theorem ruleFindall_single {S D : Str} (hS : S ≠ []) (hSb : '{' ∉ S) (hD : D ≠ [])
    (hDb : '}' ∉ D) :
    ruleFindall (S ++ '{' :: (D ++ ['}'])) = [(S, D)] := by
  have hm := matchRuleAt_single hS hSb hD hDb
  rcases S with _ | ⟨a, S'⟩
  · exact absurd rfl hS
  · unfold ruleFindall
    simp only [List.cons_append] at hm ⊢
    simp only [List.length_cons]
    simp only [ruleFindallAux, hm]

/-! ## Lemmas about `parseRulesContent` and `parseWithRegex` -/

theorem mem_parseRulesContent {content : Str} {mq : Option Str} {r : CssRule}
    (h : r ∈ parseRulesContent content mq) :
    ∃ g, g ∈ ruleFindall content ∧ (stripWs g.1).isEmpty = false ∧
      (parseProps g.2).isEmpty = false ∧
      r = { selector := (splitPseudo (stripWs g.1)).1, properties := parseProps g.2,
            media_query := mq, pseudo_selector := (splitPseudo (stripWs g.1)).2,
            raw_css := (splitPseudo (stripWs g.1)).1 ++ str " \x7b " ++ g.2 ++ str " \x7d" } := by
  unfold parseRulesContent at h
  rw [List.mem_filterMap] at h
  obtain ⟨g, hg, hf⟩ := h
  refine ⟨g, hg, ?_⟩
  by_cases h1 : (stripWs g.1).isEmpty
  · simp [h1] at hf
  · by_cases h2 : (parseProps g.2).isEmpty
    · simp [h1, h2] at hf
    · simp only [h1, h2, Bool.false_eq_true, if_false, Option.some.injEq] at hf
      exact ⟨by simp [h1], by simp [h2], hf.symm⟩

theorem parseRulesContent_single {S D : Str} (hSb : '{' ∉ S) (hDb : '}' ∉ D)
    (hsel : (stripWs S).isEmpty = false) (hprops : (parseProps D).isEmpty = false)
    (mq : Option Str) :
    parseRulesContent (S ++ '{' :: (D ++ ['}'])) mq =
      [{ selector := (splitPseudo (stripWs S)).1, properties := parseProps D,
         media_query := mq, pseudo_selector := (splitPseudo (stripWs S)).2,
         raw_css := (splitPseudo (stripWs S)).1 ++ str " \x7b " ++ D ++ str " \x7d" }] := by
  have hS : S ≠ [] := by
    intro e
    subst e
    simp [stripWs, lstripWs, rstripWs] at hsel
  have hD : D ≠ [] := by
    intro e
    subst e
    have : parseProps [] = [] := rfl
    rw [this] at hprops
    simp at hprops
  unfold parseRulesContent
  rw [ruleFindall_single hS hSb hD hDb]
  simp [List.filterMap_cons, List.isEmpty_eq_false.mp hsel, List.isEmpty_eq_false.mp hprops]

theorem parseWithRegex_plain {css : Str} (hs : '/' ∉ css) (ha : '@' ∉ css) :
    parseWithRegex css = parseRulesContent css none := by
  unfold parseWithRegex
  rw [stripComments_of_none hs]
  have hm : blockFindall (str "@media") css = [] := by
    have : str "@media" = '@' :: str "media" := rfl
    rw [this]
    exact blockFindall_of_no_at ha
  have hk : blockFindall (str "@keyframes") css = [] := by
    have : str "@keyframes" = '@' :: str "keyframes" := rfl
    rw [this]
    exact blockFindall_of_no_at ha
  simp only [hm, hk, List.foldr_nil, List.foldl_nil, List.nil_append]

theorem stripWs_subset {c : Char} {s : Str} (h : c ∈ stripWs s) : c ∈ s := by
  unfold stripWs rstripWs lstripWs at h
  rw [List.mem_reverse] at h
  have h2 := (List.dropWhile_sublist wsChar).subset h
  rw [List.mem_reverse] at h2
  exact (List.dropWhile_sublist wsChar).subset h2

theorem takeWhile_subset {c : Char} {p : Char → Bool} {s : Str}
    (h : c ∈ s.takeWhile p) : c ∈ s :=
  (List.takeWhile_sublist p).subset h

theorem splitPseudo_fst_subset {c : Char} {s : Str} (h : c ∈ (splitPseudo s).1) :
    c ∈ s := by
  unfold splitPseudo at h
  split at h
  · exact takeWhile_subset (stripWs_subset h)
  · exact h

theorem splitPseudo_fst_of_strip (s : Str) :
    ∃ y, (splitPseudo (stripWs s)).1 = stripWs y := by
  unfold splitPseudo
  split
  · exact ⟨(stripWs s).takeWhile (fun c => c != ':'), rfl⟩
  · exact ⟨s, rfl⟩

theorem mem_rule_shape {c : Char} {S D : Str} :
    c ∈ S ++ '{' :: (D ++ ['}']) ↔ c ∈ S ∨ c = '{' ∨ c ∈ D ∨ c = '}' := by
  simp only [List.mem_append, List.mem_cons, List.mem_singleton, List.not_mem_nil,
    or_false]

theorem mem_raw_shape {c : Char} {sel' D : Str} :
    c ∈ (sel' ++ [' ']) ++ '{' :: ((' ' :: (D ++ [' '])) ++ ['}']) ↔
      (c ∈ sel' ∨ c ∈ D ∨ c = ' ' ∨ c = '{' ∨ c = '}') := by
  simp only [List.mem_append, List.mem_cons, List.mem_singleton, List.not_mem_nil,
    or_false]
  tauto

theorem reparse_raw {sel' D : Str} (hstrip : stripWs (sel' ++ [' ']) = sel')
    (hne : sel' ≠ []) (hb : '{' ∉ sel') (hDb2 : '}' ∉ D)
    (hs : '/' ∉ sel') (hsD : '/' ∉ D) (hat : '@' ∉ sel') (hatD : '@' ∉ D)
    (hprops : (parseProps D).isEmpty = false) :
    ∃ r', parseWithRegex (sel' ++ str " \x7b " ++ D ++ str " \x7d") = [r'] ∧
      r'.properties = parseProps D := by
  have e1 : str " \x7b " = [' ', '{', ' '] := rfl
  have e2 : str " \x7d" = [' ', '}'] := rfl
  have hraw : sel' ++ str " \x7b " ++ D ++ str " \x7d" =
      (sel' ++ [' ']) ++ '{' :: ((' ' :: (D ++ [' '])) ++ ['}']) := by
    rw [e1, e2]
    simp
  rw [hraw]
  have hnos : '/' ∉ (sel' ++ [' ']) ++ '{' :: ((' ' :: (D ++ [' '])) ++ ['}']) := by
    intro hmem
    rcases mem_raw_shape.mp hmem with h | h | h | h | h
    · exact hs h
    · exact hsD h
    · exact absurd h (by decide)
    · exact absurd h (by decide)
    · exact absurd h (by decide)
  have hnoa : '@' ∉ (sel' ++ [' ']) ++ '{' :: ((' ' :: (D ++ [' '])) ++ ['}']) := by
    intro hmem
    rcases mem_raw_shape.mp hmem with h | h | h | h | h
    · exact hat h
    · exact hatD h
    · exact absurd h (by decide)
    · exact absurd h (by decide)
    · exact absurd h (by decide)
  rw [parseWithRegex_plain hnos hnoa]
  have hSb : '{' ∉ sel' ++ [' '] := by
    intro hmem
    rcases List.mem_append.mp hmem with h | h
    · exact hb h
    · simp at h
  have hDb : '}' ∉ ' ' :: (D ++ [' ']) := by
    intro hmem
    rcases List.mem_cons.mp hmem with h | h
    · exact absurd h (by decide)
    · rcases List.mem_append.mp h with h | h
      · exact hDb2 h
      · simp at h
  have hsel : (stripWs (sel' ++ [' '])).isEmpty = false := by
    rw [hstrip, List.isEmpty_eq_false]
    exact hne
  have hpp : parseProps (' ' :: (D ++ [' '])) = parseProps D := by
    rw [parseProps_cons_ws, parseProps_append_ws]
  have hprops2 : (parseProps (' ' :: (D ++ [' ']))).isEmpty = false := by
    rw [hpp]
    exact hprops
  rw [parseRulesContent_single hSb hDb hsel hprops2 none]
  exact ⟨_, rfl, hpp⟩

/-! ## Lemmas about grouping -/

theorem addToGroup_cons_eq (k : Str) (r : CssRule) (rs : List CssRule)
    (rest : List (Str × List CssRule)) :
    addToGroup k r ((k, rs) :: rest) = (k, rs ++ [r]) :: rest := by
  simp [addToGroup]

theorem addToGroup_cons_ne {k k' : Str} (h : k' ≠ k) (r : CssRule) (rs : List CssRule)
    (rest : List (Str × List CssRule)) :
    addToGroup k r ((k', rs) :: rest) = (k', rs) :: addToGroup k r rest := by
  simp [addToGroup, h]

theorem concatGroups_addToGroup (k : Str) (r : CssRule) :
    ∀ acc, List.Perm (concatGroups (addToGroup k r acc)) (concatGroups acc ++ [r]) := by
  intro acc
  induction acc with
  | nil => simp [addToGroup, concatGroups]
  | cons g rest ih =>
    obtain ⟨k', rs⟩ := g
    by_cases h : k' = k
    · subst h
      rw [addToGroup_cons_eq]
      simp only [concatGroups, List.foldr_cons, List.append_assoc]
      exact List.Perm.append_left rs List.perm_append_comm
    · rw [addToGroup_cons_ne h]
      simp only [concatGroups, List.foldr_cons, List.append_assoc] at ih ⊢
      exact List.Perm.append_left rs ih

theorem sublist_addToGroup {l : List CssRule} {k : Str} {r : CssRule} :
    ∀ {acc}, (∀ g ∈ acc, List.Sublist g.2 l) →
      ∀ g ∈ addToGroup k r acc, List.Sublist g.2 (l ++ [r]) := by
  intro acc
  induction acc with
  | nil =>
    intro _ g hg
    simp only [addToGroup, List.mem_singleton] at hg
    subst hg
    exact List.sublist_append_right l [r]
  | cons g0 rest ih =>
    intro hacc g hg
    obtain ⟨k', rs⟩ := g0
    by_cases h : k' = k
    · subst h
      rw [addToGroup_cons_eq] at hg
      rcases List.mem_cons.mp hg with he | hm
      · subst he
        exact List.Sublist.append (hacc (k', rs) (List.mem_cons_self _ _))
          (List.Sublist.refl [r])
      · exact ((hacc g (List.mem_cons.mpr (Or.inr hm))).trans
          (List.sublist_append_left l [r]))
    · rw [addToGroup_cons_ne h] at hg
      rcases List.mem_cons.mp hg with he | hm
      · subst he
        exact ((hacc (k', rs) (List.mem_cons_self _ _)).trans
          (List.sublist_append_left l [r]))
      · exact ih (fun g' hg' => hacc g' (List.mem_cons.mpr (Or.inr hg'))) g hm

theorem groupByKey_perm (key : CssRule → Str) (rules : List CssRule) :
    List.Perm (concatGroups (groupByKey key rules)) rules := by
  induction rules using List.reverseRecOn with
  | nil => simp [groupByKey, concatGroups]
  | append_singleton l r ih =>
    unfold groupByKey at ih ⊢
    rw [List.foldl_append]
    simp only [List.foldl_cons, List.foldl_nil]
    exact (concatGroups_addToGroup _ r _).trans (List.Perm.append ih (List.Perm.refl [r]))

theorem groupByKey_sublist (key : CssRule → Str) (rules : List CssRule) :
    ∀ g ∈ groupByKey key rules, List.Sublist g.2 rules := by
  induction rules using List.reverseRecOn with
  | nil => simp [groupByKey]
  | append_singleton l r ih =>
    unfold groupByKey at ih ⊢
    rw [List.foldl_append]
    simp only [List.foldl_cons, List.foldl_nil]
    exact sublist_addToGroup ih

theorem mem_of_mem_groupByKey {key : CssRule → Str} {rules : List CssRule}
    {g : Str × List CssRule} {r : CssRule} (hg : g ∈ groupByKey key rules)
    (hr : r ∈ g.2) : r ∈ rules :=
  (groupByKey_sublist key rules g hg).subset hr

/-! ## Membership lemmas for the two parsing strategies -/

theorem mem_foldr_media {r : CssRule} :
    ∀ mm : List (Str × Str),
      r ∈ mm.foldr
          (fun qb acc => parseRulesContent (stripWs qb.2) (some (stripWs qb.1)) ++ acc)
          [] →
      ∃ qb, qb ∈ mm ∧ r ∈ parseRulesContent (stripWs qb.2) (some (stripWs qb.1)) := by
  intro mm
  induction mm with
  | nil => intro h; simp at h
  | cons qb rest ih =>
    intro h
    rw [List.foldr_cons, List.mem_append] at h
    rcases h with h | h
    · exact ⟨qb, List.mem_cons_self _ _, h⟩
    · obtain ⟨qb', hqb', hr⟩ := ih h
      exact ⟨qb', List.mem_cons.mpr (Or.inr hqb'), hr⟩

theorem mem_parseWithRegex {css : Str} {r : CssRule}
    (h : r ∈ parseWithRegex css) :
    ∃ content mq, r ∈ parseRulesContent content mq := by
  unfold parseWithRegex at h
  rw [List.mem_append] at h
  rcases h with h | h
  · obtain ⟨qb, _, hr⟩ := mem_foldr_media _ h
    exact ⟨_, _, hr⟩
  · exact ⟨_, _, h⟩

theorem parseStyleRule_eq_some {selText : Str} {decls : List (Str × Str)}
    {cssText : Str} {r : CssRule} (h : parseStyleRule selText decls cssText = some r) :
    r.properties.isEmpty = false ∧
      r.selector = (splitPseudo (stripWs selText)).1 ∧
      r.pseudo_selector = (splitPseudo (stripWs selText)).2 ∧
      r.media_query = none := by
  unfold parseStyleRule at h
  split at h
  · exact absurd h (by simp)
  · rename_i hcond
    injection h with h
    subst h
    exact ⟨by simpa using hcond, rfl, rfl, rfl⟩

theorem mem_parseMediaRule {m : Str} {r : CssRule} :
    ∀ {children : List (Str × List (Str × Str) × Str)},
      r ∈ parseMediaRule m children →
      ∃ (ch : Str × List (Str × Str) × Str) (r0 : CssRule),
        parseStyleRule ch.1 ch.2.1 ch.2.2 = some r0 ∧
        r = { r0 with media_query := some m } := by
  intro children
  induction children with
  | nil => intro h; simp [parseMediaRule] at h
  | cons ch rest ih =>
    intro h
    unfold parseMediaRule at h
    rw [List.foldr_cons] at h
    rcases he : parseStyleRule ch.1 ch.2.1 ch.2.2 with _ | r0
    · rw [he] at h
      exact ih (by simpa [parseMediaRule] using h)
    · rw [he] at h
      rcases List.mem_cons.mp h with h1 | h1
      · exact ⟨ch, r0, he, h1⟩
      · exact ih (by simpa [parseMediaRule] using h1)

theorem mem_parseWithCssutils {sheet : List SheetRule} {r : CssRule}
    (h : r ∈ parseWithCssutils sheet) :
    (∃ s d c, parseStyleRule s d c = some r) ∨
      (∃ m r0 s d c, parseStyleRule s d c = some r0 ∧
        r = { r0 with media_query := some m }) := by
  induction sheet with
  | nil => simp [parseWithCssutils] at h
  | cons rule rest ih =>
    rcases rule with ⟨s, d, c⟩ | ⟨m, ch⟩ | _ | _ <;>
      (unfold parseWithCssutils at h; rw [List.foldr_cons] at h; dsimp only at h)
    · rcases he : parseStyleRule s d c with _ | r0
      · rw [he] at h
        exact ih (by simpa [parseWithCssutils] using h)
      · rw [he] at h
        rcases List.mem_cons.mp h with h1 | h1
        · exact Or.inl ⟨s, d, c, h1 ▸ he⟩
        · exact ih (by simpa [parseWithCssutils] using h1)
    · rw [List.mem_append] at h
      rcases h with h | h
      · obtain ⟨chx, r0, he, hr⟩ := mem_parseMediaRule h
        exact Or.inr ⟨m, r0, chx.1, chx.2.1, chx.2.2, he, hr⟩
      · exact ih (by simpa [parseWithCssutils] using h)
    · exact ih (by simpa [parseWithCssutils] using h)
    · exact ih (by simpa [parseWithCssutils] using h)

/-! ## Lemmas about the value mapper -/

theorem getCategory_refines (p : Str) :
    getCategoryForProperty p = specCategoryForProperty p := by
  simp only [getCategoryForProperty, specCategoryForProperty]
  rw [Bool.or_comm (containsSub (toLowerStr p) (str "border-radius"))
    (decide (toLowerStr p = str "border-radius"))]

theorem getCategory_cases {p c : Str} (h : getCategoryForProperty p = some c) :
    c = str "colors" ∨ c = str "spacing" ∨ c = str "border_radius" ∨
      c = str "font_sizes" ∨ c = str "font_weights" ∨ c = str "shadows" ∨
      c = str "transitions" ∨ c = str "breakpoints" := by
  simp only [getCategoryForProperty] at h
  split at h
  · exact Or.inl (Option.some.inj h).symm
  split at h
  · exact Or.inr (Or.inl (Option.some.inj h).symm)
  split at h
  · exact Or.inr (Or.inr (Or.inl (Option.some.inj h).symm))
  split at h
  · exact Or.inr (Or.inr (Or.inr (Or.inl (Option.some.inj h).symm)))
  split at h
  · exact Or.inr (Or.inr (Or.inr (Or.inr (Or.inl (Option.some.inj h).symm))))
  split at h
  · exact Or.inr (Or.inr (Or.inr (Or.inr (Or.inr (Or.inl (Option.some.inj h).symm)))))
  split at h
  · exact Or.inr (Or.inr (Or.inr (Or.inr (Or.inr (Or.inr
      (Or.inl (Option.some.inj h).symm))))))
  split at h
  · exact Or.inr (Or.inr (Or.inr (Or.inr (Or.inr (Or.inr (Or.inr
      (Option.some.inj h).symm))))))
  · exact absurd h (by simp)

theorem mapValue_of_category {p v c : Str} (h : getCategoryForProperty p = some c) :
    ∃ d, dictGet c defaultMappings = some d ∧
      mapValue defaultMappings p v = (dictGet (stripWs v) d).getD (stripWs v) := by
  rcases getCategory_cases h with rfl | rfl | rfl | rfl | rfl | rfl | rfl | rfl <;>
    · refine ⟨_, rfl, ?_⟩
      simp only [mapValue, h]
      rfl

theorem splitPseudo_cases (s : Str) :
    ((s.any (fun c => c == ':') = true ∧ List.isPrefixOf (str ":root") s = false) →
      splitPseudo s = (stripWs (s.takeWhile (fun c => c != ':')),
        some (stripWs ((s.dropWhile (fun c => c != ':')).tail)))) ∧
    ((s.any (fun c => c == ':') = false ∨ List.isPrefixOf (str ":root") s = true) →
      splitPseudo s = (s, none)) := by
  unfold splitPseudo
  constructor
  · rintro ⟨h1, h2⟩
    rw [if_pos]
    simp [h1, h2]
  · rintro (h | h)
    · rw [if_neg]
      simp [h]
    · rw [if_neg]
      simp [h]

/-! ## The claims -/

/-- Claim C1: `map_value` returns the specification's concrete vectors over
the default table: `#007bff` for `background-color` maps to
`var(--color-primary)`, `16px` for `padding` to `var(--spacing-md)`, `50%`
for `border-radius` passes through via its identity entry, and the unmapped
`#123456` for `color` passes through unchanged. -/
theorem c1_map_value_vectors :
    mapValue defaultMappings (str "background-color") (str "#007bff") =
        str "var(--color-primary)" ∧
      mapValue defaultMappings (str "padding") (str "16px") = str "var(--spacing-md)" ∧
      mapValue defaultMappings (str "border-radius") (str "50%") = str "50%" ∧
      mapValue defaultMappings (str "color") (str "#123456") = str "#123456" :=
  ⟨rfl, rfl, rfl, rfl⟩

/-- Claim C2: for every property name and raw value, `map_value` classifies
the lower-cased property name by the fixed precedence order of the
specification (checked by refinement against `specCategoryForProperty`,
written from the specification's wording), and when a category is found it
returns that category table's mapping for the trimmed value on an
exact-match hit and the trimmed value unchanged otherwise. -/
theorem c2_map_value_categorized :
    (∀ p, getCategoryForProperty p = specCategoryForProperty p) ∧
      (∀ p v c, getCategoryForProperty p = some c →
        ∃ d, dictGet c defaultMappings = some d ∧
          mapValue defaultMappings p v = (dictGet (stripWs v) d).getD (stripWs v)) :=
  ⟨getCategory_refines, fun _ _ _ h => mapValue_of_category h⟩

/-- Witness for claim C2 at property `padding`, value `16px`. -/
theorem c2_map_value_categorized_witness :
    getCategoryForProperty (str "padding") = some (str "spacing") ∧
      ∃ d, dictGet (str "spacing") defaultMappings = some d ∧
        mapValue defaultMappings (str "padding") (str "16px") =
          (dictGet (stripWs (str "16px")) d).getD (stripWs (str "16px")) :=
  ⟨rfl, c2_map_value_categorized.2 (str "padding") (str "16px") (str "spacing") rfl⟩

/-- Claim C3: building a dict from a literal pair list keeps only the
last-inserted value of a duplicated key (stated generally through
`dictGet`/`buildDict`/`lastVal`), the colors literal of the default table
writes `#ffffff`, `#6c757d` and `#adb5bd` twice each, and `map_value`
accordingly returns `var(--color-background)`, `var(--color-text-secondary)`
and `var(--color-border-hover)` for them. -/
theorem c3_duplicate_keys_last_wins :
    (∀ (ps : List (Str × Str)) (k : Str), dictGet k (buildDict ps) = lastVal k ps) ∧
      (colorsPairs.countP (fun kv => kv.1 == str "#ffffff") = 2 ∧
        colorsPairs.countP (fun kv => kv.1 == str "#6c757d") = 2 ∧
        colorsPairs.countP (fun kv => kv.1 == str "#adb5bd") = 2) ∧
      mapValue defaultMappings (str "color") (str "#ffffff") =
        str "var(--color-background)" ∧
      mapValue defaultMappings (str "color") (str "#6c757d") =
        str "var(--color-text-secondary)" ∧
      mapValue defaultMappings (str "color") (str "#adb5bd") =
        str "var(--color-border-hover)" :=
  ⟨dictGet_buildDict, ⟨rfl, rfl, rfl⟩, rfl, rfl, rfl⟩

/-- Claim C4 (the code contradicts it): a syntactically valid JSON override
document that is not an object — here the document `42` — reaches
`_merge_mappings`, whose `.items()` call raises an uncaught
`AttributeError`, so construction aborts instead of warning and keeping the
defaults.  Unreadable or JSON-invalid input is recovered as claimed, and a
well-formed object override is merged per-category shallowly with custom
keys winning. -/
theorem c4_override_merge :
    (∃ e, constructMappings (some (Except.ok (PyVal.pnum 42))) = Except.error e) ∧
      constructMappings (some (Except.error (str "Expecting value"))) =
        Except.ok defaultMappingsPy ∧
      constructMappings none = Except.ok defaultMappingsPy ∧
      (∃ m d, constructMappings (some (Except.ok (PyVal.pdict
            [(PyVal.pstr (str "colors"), PyVal.pdict
              [(PyVal.pstr (str "white"), PyVal.pstr (str "var(--x)")),
               (PyVal.pstr (str "#123456"), PyVal.pstr (str "var(--custom)"))])]))) =
          Except.ok m ∧
        pyDictGet (PyVal.pstr (str "colors")) m = some (PyVal.pdict d) ∧
        pyDictGet (PyVal.pstr (str "white")) d = some (PyVal.pstr (str "var(--x)")) ∧
        pyDictGet (PyVal.pstr (str "#123456")) d =
          some (PyVal.pstr (str "var(--custom)")) ∧
        pyDictGet (PyVal.pstr (str "black")) d =
          some (PyVal.pstr (str "var(--color-text-primary)"))) :=
  ⟨⟨str "AttributeError: no items method", rfl⟩, rfl, rfl, _, _, rfl, rfl, rfl, rfl, rfl⟩

/-- Counterexample to claim C5: the selector `.a\:b:hover` contains an
escaped colon before the pseudo-class colon; the first unescaped colon is
the one before `hover`, so the claim predicts selector `.a\:b` and pseudo
selector `hover`, but the code splits at the literal first colon and
produces selector `.a\` with pseudo selector `b:hover`. -/
theorem c5_counterexample :
    parseWithRegex (str ".a\\:b:hover\x7bcolor:red\x7d") =
      [{ selector := str ".a\\", properties := [(str "color", str "red")],
         media_query := none, pseudo_selector := some (str "b:hover"),
         raw_css := str ".a\\ \x7b color:red \x7d" }] ∧
      str ".a\\" ≠ str ".a\\:b" :=
  ⟨rfl, by decide⟩

/-- Claim C5 as amended: both parsing strategies split every selector that
contains a colon and does not start with `:root` at its literal first colon
(escape sequences are not recognized), the selector becoming the trimmed
text before that colon and the pseudo selector the trimmed text after it;
selectors starting with `:root` or without a colon are kept intact with no
pseudo selector. -/
theorem c5_first_colon_split :
    (∀ (content : Str) (mq : Option Str) (r : CssRule),
      r ∈ parseRulesContent content mq →
      ∃ g, g ∈ ruleFindall content ∧
        (((stripWs g.1).any (fun c => c == ':') = true ∧
            List.isPrefixOf (str ":root") (stripWs g.1) = false) →
          r.selector = stripWs ((stripWs g.1).takeWhile (fun c => c != ':')) ∧
          r.pseudo_selector =
            some (stripWs (((stripWs g.1).dropWhile (fun c => c != ':')).tail))) ∧
        (((stripWs g.1).any (fun c => c == ':') = false ∨
            List.isPrefixOf (str ":root") (stripWs g.1) = true) →
          r.selector = stripWs g.1 ∧ r.pseudo_selector = none)) ∧
    (∀ (selText : Str) (decls : List (Str × Str)) (raw : Str) (r : CssRule),
      parseStyleRule selText decls raw = some r →
      (((stripWs selText).any (fun c => c == ':') = true ∧
          List.isPrefixOf (str ":root") (stripWs selText) = false) →
        r.selector = stripWs ((stripWs selText).takeWhile (fun c => c != ':')) ∧
        r.pseudo_selector =
          some (stripWs (((stripWs selText).dropWhile (fun c => c != ':')).tail))) ∧
      (((stripWs selText).any (fun c => c == ':') = false ∨
          List.isPrefixOf (str ":root") (stripWs selText) = true) →
        r.selector = stripWs selText ∧ r.pseudo_selector = none)) := by
  constructor
  · intro content mq r hr
    obtain ⟨g, hg, _, _, hre⟩ := mem_parseRulesContent hr
    refine ⟨g, hg, ?_, ?_⟩
    · intro hc
      rw [hre]
      have := (splitPseudo_cases (stripWs g.1)).1 hc
      simp [this]
    · intro hc
      rw [hre]
      have := (splitPseudo_cases (stripWs g.1)).2 hc
      simp [this]
  · intro selText decls raw r hr
    obtain ⟨_, hsel, hps, _⟩ := parseStyleRule_eq_some hr
    constructor
    · intro hc
      have := (splitPseudo_cases (stripWs selText)).1 hc
      rw [hsel, hps, this]
      exact ⟨rfl, rfl⟩
    · intro hc
      have := (splitPseudo_cases (stripWs selText)).2 hc
      rw [hsel, hps, this]
      exact ⟨rfl, rfl⟩

/-- Witness for the amended claim C5: the primary strategy's per-rule parse
splits `.x:hover` into selector `.x` and pseudo selector `hover`. -/
theorem c5_first_colon_split_witness :
    parseStyleRule (str ".x:hover") [(str "a", str "b")] (str "raw") =
      some { selector := str ".x", properties := [(str "a", str "b")],
             media_query := none, pseudo_selector := some (str "hover"),
             raw_css := str "raw" } ∧
    (((stripWs (str ".x:hover")).any (fun c => c == ':') = true ∧
        List.isPrefixOf (str ":root") (stripWs (str ".x:hover")) = false) →
      ({ selector := str ".x", properties := [(str "a", str "b")],
         media_query := none, pseudo_selector := some (str "hover"),
         raw_css := str "raw" } : CssRule).selector =
          stripWs ((stripWs (str ".x:hover")).takeWhile (fun c => c != ':')) ∧
        ({ selector := str ".x", properties := [(str "a", str "b")],
           media_query := none, pseudo_selector := some (str "hover"),
           raw_css := str "raw" } : CssRule).pseudo_selector =
          some (stripWs (((stripWs (str ".x:hover")).dropWhile
            (fun c => c != ':')).tail))) :=
  ⟨rfl, ((c5_first_colon_split.2 (str ".x:hover") [(str "a", str "b")] (str "raw")
      _ rfl).1)⟩

/-- Counterexample to claim C6: on `c6Css` the fallback parser returns the
media-bound rule first, then the regular rule, then a re-scan artifact of
the media block, so no decomposition into a regular tier followed by a
media-bound tier exists. -/
theorem c6_counterexample :
    parseWithRegex c6Css = [c6RuleB, c6RuleA, c6RuleJ] ∧
      ¬∃ reg med, parseWithRegex c6Css = reg ++ med ∧
        (∀ r ∈ reg, r.media_query = none) ∧ (∀ r ∈ med, r.media_query ≠ none) := by
  have hfull : parseWithRegex c6Css = [c6RuleB, c6RuleA, c6RuleJ] := rfl
  refine ⟨hfull, ?_⟩
  rintro ⟨reg, med, heq, hreg, hmed⟩
  rw [hfull] at heq
  rcases reg with _ | ⟨x, reg'⟩
  · rw [List.nil_append] at heq
    have hm : c6RuleA ∈ med := by rw [← heq]; simp
    exact hmed c6RuleA hm rfl
  · have hx : c6RuleB = x := (List.cons.inj heq).1
    have := hreg x (List.mem_cons_self _ _)
    rw [← hx] at this
    simp [c6RuleB] at this

/-- Claim C6 as amended: the fallback parser's result always decomposes
into the media-bound rules first (each carrying a media query), followed by
the rules scanned from the remaining text, which carry none. -/
theorem c6_media_tier_first (css : Str) :
    ∃ mediaPart regularPart, parseWithRegex css = mediaPart ++ regularPart ∧
      (∀ r ∈ mediaPart, ∃ q, r.media_query = some q) ∧
      (∀ r ∈ regularPart, r.media_query = none) := by
  refine ⟨_, _, rfl, ?_, ?_⟩
  · intro r hr
    obtain ⟨qb, _, hr2⟩ := mem_foldr_media _ hr
    obtain ⟨g, _, _, _, hre⟩ := mem_parseRulesContent hr2
    exact ⟨_, by rw [hre]⟩
  · intro r hr
    obtain ⟨g, _, _, _, hre⟩ := mem_parseRulesContent hr
    rw [hre]

/-- Witness for the amended claim C6 at the concrete stylesheet `c6Css`. -/
theorem c6_media_tier_first_witness :
    ∃ mediaPart regularPart, parseWithRegex c6Css = mediaPart ++ regularPart ∧
      (∀ r ∈ mediaPart, ∃ q, r.media_query = some q) ∧
      (∀ r ∈ regularPart, r.media_query = none) :=
  c6_media_tier_first c6Css

/-- Claim C7: `_extract_component_name` coincides everywhere with the
specification's description (fixed prefix list first, else the first
delimiter-separated token lower-cased, else the literal `component`, a
branch `re.split` makes unreachable), and grouping the selectors
`.btn-primary`, `.btn-secondary`, `.card-header` yields the `button` group
with two rules and the `card` group with one. -/
theorem c7_component_grouping :
    (∀ sel, extractComponentName sel = specComponentName sel) ∧
      groupRulesByComponent [btnPrimaryRule, btnSecondaryRule, cardHeaderRule] =
        [(str "button", [btnPrimaryRule, btnSecondaryRule]),
         (str "card", [cardHeaderRule])] := by
  constructor
  · intro sel
    unfold extractComponentName specComponentName
    rcases h : splitOnPred componentDelim (lstripDotSpace sel) with _ | ⟨w, t⟩ <;>
      simp [h]
  · rfl

/-- Counterexample to claim C8: `group_rules_by_component` does no
filtering of its own, so grouping a list that contains a rule with an empty
property mapping yields a grouping containing that rule. -/
theorem c8_counterexample :
    groupRulesByComponent [emptyPropsRule] = [(str "x", [emptyPropsRule])] ∧
      emptyPropsRule.properties = [] :=
  ⟨rfl, rfl⟩

/-- Claim C8 as amended: neither parsing strategy ever returns a rule with
an empty property mapping, and the groupings of a parsed rule list
therefore contain none either (the exclusion happens at parse time, not in
the grouping). -/
theorem c8_no_empty_properties :
    (∀ (css : Str) (r : CssRule), r ∈ parseWithRegex css →
        r.properties.isEmpty = false) ∧
      (∀ (sheet : List SheetRule) (r : CssRule), r ∈ parseWithCssutils sheet →
        r.properties.isEmpty = false) ∧
      (∀ (css : Str) (g : Str × List CssRule) (r : CssRule),
        g ∈ groupRulesByComponent (parseWithRegex css) → r ∈ g.2 →
        r.properties.isEmpty = false) := by
  have h1 : ∀ (css : Str) (r : CssRule), r ∈ parseWithRegex css →
      r.properties.isEmpty = false := by
    intro css r hr
    obtain ⟨content, mq, hr2⟩ := mem_parseWithRegex hr
    obtain ⟨g, _, _, hp, hre⟩ := mem_parseRulesContent hr2
    rw [hre]
    exact hp
  refine ⟨h1, ?_, ?_⟩
  · intro sheet r hr
    rcases mem_parseWithCssutils hr with ⟨s, d, c, he⟩ | ⟨m, r0, s, d, c, he, hre⟩
    · exact (parseStyleRule_eq_some he).1
    · rw [hre]
      exact (parseStyleRule_eq_some he).1
  · intro css g r hg hr
    exact h1 css r (mem_of_mem_groupByKey hg hr)

/-- Witness for the amended claim C8: the rule parsed from `.a{x:1}` has a
non-empty property mapping. -/
theorem c8_no_empty_properties_witness :
    c8Rule ∈ parseWithRegex (str ".a\x7bx:1\x7d") ∧ c8Rule.properties.isEmpty = false :=
  ⟨by decide, c8_no_empty_properties.1 (str ".a\x7bx:1\x7d") c8Rule (by decide)⟩

/-- Counterexample to claim C9: `:hover{color:red}` is a simple single-rule
stylesheet from which the fallback parser produces exactly one rule, but
the rule's post-split selector is empty, its `raw_css` re-serializes as
` { color:red }`, and re-parsing that text yields no rule at all, so no
rule with identical properties exists. -/
theorem c9_counterexample :
    SimpleSingleRule (str ":hover") (str "color:red") ∧
      parseWithRegex (str ":hover" ++ '{' :: (str "color:red" ++ ['}'])) = [c9Rule] ∧
      parseWithRegex c9Rule.raw_css = [] :=
  ⟨by decide, rfl, rfl⟩

/-- Claim C9 as amended: for a simple single-rule stylesheet whose
post-split selector is non-empty, the fallback parser produces exactly one
rule, and re-parsing that rule's `raw_css` yields a rule with an identical
property mapping. -/
theorem c9_roundtrip (S D : Str) (hsimple : SimpleSingleRule S D)
    (hbase : (splitPseudo (stripWs S)).1 ≠ []) :
    ∃ r r', parseWithRegex (S ++ '{' :: (D ++ ['}'])) = [r] ∧
      r.properties = parseProps D ∧
      parseWithRegex r.raw_css = [r'] ∧ r'.properties = r.properties := by
  obtain ⟨hbS, hbS2, hbD, hbD2, haS, haD, hsS, hsD, hselne, hpne⟩ := hsimple
  have hsel : (stripWs S).isEmpty = false := by
    rcases he : (stripWs S).isEmpty with _ | _
    · rfl
    · exact absurd he hselne
  have hprops : (parseProps D).isEmpty = false := by
    rcases he : (parseProps D).isEmpty with _ | _
    · rfl
    · exact absurd he hpne
  have hnos : '/' ∉ S ++ '{' :: (D ++ ['}']) := by
    intro hm
    rcases mem_rule_shape.mp hm with h | h | h | h
    · exact hsS h
    · exact absurd h (by decide)
    · exact hsD h
    · exact absurd h (by decide)
  have hnoa : '@' ∉ S ++ '{' :: (D ++ ['}']) := by
    intro hm
    rcases mem_rule_shape.mp hm with h | h | h | h
    · exact haS h
    · exact absurd h (by decide)
    · exact haD h
    · exact absurd h (by decide)
  rw [parseWithRegex_plain hnos hnoa, parseRulesContent_single hbS hbD2 hsel hprops none]
  obtain ⟨y, hy⟩ := splitPseudo_fst_of_strip S
  have hstrip : stripWs ((splitPseudo (stripWs S)).1 ++ [' ']) =
      (splitPseudo (stripWs S)).1 := by
    rw [hy]
    exact stripWs_strip_append_ws y
  have hsub : ∀ {c : Char}, c ∈ (splitPseudo (stripWs S)).1 → c ∈ S :=
    fun hm => stripWs_subset (splitPseudo_fst_subset hm)
  obtain ⟨r', hr1, hr2⟩ := reparse_raw hstrip hbase
    (fun hm => hbS (hsub hm)) hbD2
    (fun hm => hsS (hsub hm)) hsD
    (fun hm => haS (hsub hm)) haD hprops
  exact ⟨_, r', rfl, rfl, hr1, hr2⟩

/-- Witness for the amended claim C9 at the stylesheet `.a:hover{color:red}`. -/
theorem c9_roundtrip_witness :
    SimpleSingleRule (str ".a:hover") (str "color:red") ∧
      (splitPseudo (stripWs (str ".a:hover"))).1 ≠ [] ∧
      ∃ r r', parseWithRegex (str ".a:hover" ++ '{' :: (str "color:red" ++ ['}'])) = [r] ∧
        r.properties = parseProps (str "color:red") ∧
        parseWithRegex r.raw_css = [r'] ∧ r'.properties = r.properties :=
  ⟨by decide, by decide, c9_roundtrip (str ".a:hover") (str "color:red")
    (by decide) (by decide)⟩

/-- Claim C10: both `group_rules_by_component` and `extract_variants`
partition their input: the concatenation of the group lists is a
permutation of the input (every rule exactly once) and every group is an
order-preserving sublist of the input; the embedding is a pure function of
the input list, which is therefore not mutated. -/
theorem c10_grouping_partition (rules : List CssRule) :
    (List.Perm (concatGroups (groupRulesByComponent rules)) rules ∧
        ∀ g ∈ groupRulesByComponent rules, List.Sublist g.2 rules) ∧
      (List.Perm (concatGroups (extractVariants rules)) rules ∧
        ∀ g ∈ extractVariants rules, List.Sublist g.2 rules) :=
  ⟨⟨groupByKey_perm _ _, groupByKey_sublist _ _⟩,
   ⟨groupByKey_perm _ _, groupByKey_sublist _ _⟩⟩

/-- Witness for claim C10 on a concrete two-rule list. -/
theorem c10_grouping_partition_witness :
    List.Perm (concatGroups (groupRulesByComponent [btnPrimaryRule, cardHeaderRule]))
        [btnPrimaryRule, cardHeaderRule] ∧
      List.Sublist [cardHeaderRule] [btnPrimaryRule, cardHeaderRule] :=
  ⟨(c10_grouping_partition [btnPrimaryRule, cardHeaderRule]).1.1,
   (c10_grouping_partition [btnPrimaryRule, cardHeaderRule]).1.2
     (str "card", [cardHeaderRule]) (by decide)⟩
